import Mathlib

/-!
Shallow embedding of `go_game/coordinates.py` (board-coordinate conversions
between the canonical MiniGo coordinate, flat indices, SGF tokens, KGS tokens
and sgfmill tuples).

Modelling conventions:
* A canonical (MiniGo) coordinate is `Option (Int × Int)`: `none` is Python's
  `None` (Pass), `some (row, col)` a `(row, column)` tuple of Python ints.
* The global `go.BOARD_SIZE` (the `go` module is configuration external to the
  conversion module) is threaded through as the explicit `board_size`
  parameter; the spec fixes it as a positive integer.
* Python runtime exceptions are made explicit as `Except PyErr`:
  `str.index` and `int()` raise `ValueError`, sequence subscripts raise
  `IndexError`.  Functions that cannot raise stay pure.
* `int(s)` is modelled on the grammar "optional sign followed by decimal
  digits"; Python additionally strips surrounding whitespace and allows
  underscore digit grouping, which no token produced or analysed in this
  development contains.
* `str.upper` is modelled on ASCII characters (`Char.toUpper`), the only
  characters the KGS alphabet and tokens here involve.
-/

deriving instance DecidableEq for Except

/-- Python runtime exceptions that the conversion functions can raise. -/
inductive PyErr where
  | valueError
  | indexError
deriving DecidableEq

/-- The 52-symbol SGF column alphabet `_SGF_COLUMNS` from coordinates.py. -/
def _SGF_COLUMNS : List Char :=
  "abcdefghijklmnopqrstuvwxyzABCDEFGHIJKLMNOPQRSTUVWXYZ".data

/-- The 25-symbol KGS column alphabet `_KGS_COLUMNS` (skips the letter I). -/
def _KGS_COLUMNS : List Char := "ABCDEFGHJKLMNOPQRSTUVWXYZ".data

/-- Index adjustment of Python sequence subscripts: a negative index counts
from the end of the sequence. -/
def pyWrap (xs : List Char) (i : Int) : Int :=
  if i < 0 then i + xs.length else i

/-- Python sequence subscript `xs[i]`: negative indices wrap once around the
end of the sequence; anything still out of range raises `IndexError`. -/
def pyListGet (xs : List Char) (i : Int) : Except PyErr Char :=
  if 0 ≤ pyWrap xs i then
    match xs.get? (pyWrap xs i).toNat with
    | some c => Except.ok c
    | none => Except.error PyErr.indexError
  else Except.error PyErr.indexError

/-- Python `str.__getitem__` with a nonnegative literal index, as used by
`sgfc[0]`, `sgfc[1]` and `kgsc[0]`: raises `IndexError` past the end. -/
def pyStrGet (s : List Char) (i : Nat) : Except PyErr Char :=
  match s.get? i with
  | some c => Except.ok c
  | none => Except.error PyErr.indexError

/-- Python `seq.index(c)`: index of the first occurrence of `c`, raising
`ValueError` when `c` does not occur. -/
def pyIndex (xs : List Char) (c : Char) : Except PyErr Nat :=
  if c ∈ xs then Except.ok (xs.indexOf c) else Except.error PyErr.valueError

/-- The decimal digit character for a value below ten. -/
def digitChar (d : Nat) : Char := Char.ofNat (48 + d)

/-- The numeric value of a decimal digit character, `none` otherwise. -/
def digitVal (c : Char) : Option Nat :=
  if '0' ≤ c ∧ c ≤ '9' then some (c.toNat - 48) else none

/-- Left-to-right accumulation of a decimal digit string; fails on the first
non-digit character. -/
def parseDigitsAux : List Char → Nat → Option Nat
  | [], acc => some acc
  | c :: cs, acc =>
    match digitVal c with
    | some d => parseDigitsAux cs (acc * 10 + d)
    | none => none

/-- Python `int(s)` on the grammar "optional sign, then one or more decimal
digits"; every other string raises `ValueError`. -/
def pyInt (s : List Char) : Except PyErr Int :=
  match s with
  | [] => Except.error PyErr.valueError
  | c :: rest =>
    if c = '-' then
      if rest = [] then Except.error PyErr.valueError
      else
        match parseDigitsAux rest 0 with
        | some n => Except.ok (-(n : Int))
        | none => Except.error PyErr.valueError
    else if c = '+' then
      if rest = [] then Except.error PyErr.valueError
      else
        match parseDigitsAux rest 0 with
        | some n => Except.ok ((n : Int))
        | none => Except.error PyErr.valueError
    else
      match parseDigitsAux (c :: rest) 0 with
      | some n => Except.ok ((n : Int))
      | none => Except.error PyErr.valueError

/-- Accumulator loop producing the decimal digits of `n` in front of `acc`;
structural fuel (any fuel `≥ n` suffices, since the argument is divided by
ten while positive). -/
def natDigitsGo : Nat → Nat → List Char → List Char
  | 0, _, acc => acc
  | fuel + 1, n, acc =>
    if n = 0 then acc
    else natDigitsGo fuel (n / 10) (digitChar (n % 10) :: acc)

/-- Python `str(n)` for a nonnegative int: its decimal digit string. -/
def natDigits (n : Nat) : List Char :=
  if n = 0 then ['0'] else natDigitsGo n n []

/-- Python `str(i)` / `'{}'.format(i)` for an int: decimal digits, with a
leading minus sign when negative. -/
def intRepr (i : Int) : List Char :=
  if i < 0 then '-' :: natDigits (-i).toNat else natDigits i.toNat

/-- `from_flat` of coordinates.py: the flat index `board_size * board_size`
decodes to Pass, every other int is fed to Python `divmod(flat, board_size)`
(floor division, nonnegative remainder — `Int.ediv`/`Int.emod` for a positive
divisor). -/
def from_flat (board_size : Nat) (flat : Int) : Option (Int × Int) :=
  if flat = (board_size : Int) * board_size then none
  else some (flat.ediv board_size, flat.emod board_size)

/-- `to_flat` of coordinates.py: Pass encodes to `board_size * board_size`,
a tuple `(r, c)` to `board_size * r + c`. -/
def to_flat (board_size : Nat) (coord : Option (Int × Int)) : Int :=
  match coord with
  | none => (board_size : Int) * board_size
  | some (r, c) => (board_size : Int) * r + c

/-- `from_sgf` of coordinates.py: `None` and the empty string decode to Pass;
otherwise the result is `(_SGF_COLUMNS.index(sgfc[1]), _SGF_COLUMNS.index(sgfc[0]))`,
evaluated in Python's left-to-right order. -/
def from_sgf (sgfc : Option String) : Except PyErr (Option (Int × Int)) :=
  match sgfc with
  | none => Except.ok none
  | some s =>
    if s = "" then Except.ok none
    else
      match pyStrGet s.data 1 with
      | Except.error e => Except.error e
      | Except.ok c1 =>
        match pyIndex _SGF_COLUMNS c1 with
        | Except.error e => Except.error e
        | Except.ok r =>
          match pyStrGet s.data 0 with
          | Except.error e => Except.error e
          | Except.ok c0 =>
            match pyIndex _SGF_COLUMNS c0 with
            | Except.error e => Except.error e
            | Except.ok c => Except.ok (some ((r : Int), (c : Int)))

/-- `to_sgf` of coordinates.py: Pass encodes to the empty string, a tuple to
`_SGF_COLUMNS[coord[1]] + _SGF_COLUMNS[coord[0]]` (column letter first). -/
def to_sgf (coord : Option (Int × Int)) : Except PyErr String :=
  match coord with
  | none => Except.ok ""
  | some (y, x) =>
    match pyListGet _SGF_COLUMNS x with
    | Except.error e => Except.error e
    | Except.ok a =>
      match pyListGet _SGF_COLUMNS y with
      | Except.error e => Except.error e
      | Except.ok b => Except.ok (String.mk [a, b])

/-- `from_kgs` of coordinates.py: the exact string "pass" (checked before any
case normalisation) decodes to Pass; otherwise the token is uppercased, its
first character looked up in `_KGS_COLUMNS`, the rest fed to `int`, and the
result is `(board_size - row_from_bottom, col)` with no range validation. -/
def from_kgs (board_size : Nat) (kgsc : String) : Except PyErr (Option (Int × Int)) :=
  if kgsc = "pass" then Except.ok none
  else
    let ku : List Char := kgsc.data.map Char.toUpper
    match pyStrGet ku 0 with
    | Except.error e => Except.error e
    | Except.ok c0 =>
      match pyIndex _KGS_COLUMNS c0 with
      | Except.error e => Except.error e
      | Except.ok col =>
        match pyInt (ku.drop 1) with
        | Except.error e => Except.error e
        | Except.ok row_from_bottom =>
          Except.ok (some ((board_size : Int) - row_from_bottom, (col : Int)))

/-- `to_kgs` of coordinates.py: Pass encodes to "pass", a tuple `(y, x)` to
the column letter `_KGS_COLUMNS[x]` followed by the decimal rendering of
`board_size - y`. -/
def to_kgs (board_size : Nat) (coord : Option (Int × Int)) : Except PyErr String :=
  match coord with
  | none => Except.ok "pass"
  | some (y, x) =>
    match pyListGet _KGS_COLUMNS x with
    | Except.error e => Except.error e
    | Except.ok c => Except.ok (String.mk (c :: intRepr ((board_size : Int) - y)))

/-- `from_sgfmill` of coordinates.py: `None` passes through, a tuple keeps its
column and flips its row to `board_size - 1 - row`. -/
def from_sgfmill (board_size : Nat) (sgfmillc : Option (Int × Int)) :
    Option (Int × Int) :=
  match sgfmillc with
  | none => none
  | some (row, col) => some ((board_size : Int) - 1 - row, col)

/-- `to_sgfmill` of coordinates.py: `None` passes through, a tuple keeps its
column and flips its row to `board_size - 1 - row`. -/
def to_sgfmill (board_size : Nat) (coord : Option (Int × Int)) :
    Option (Int × Int) :=
  match coord with
  | none => none
  | some (row, col) => some ((board_size : Int) - 1 - row, col)

/-- Membership in the canonical domain of a board: Pass, or a coordinate pair
with both components in `[0, board_size)`. -/
def canonOK (board_size : Nat) (v : Option (Int × Int)) : Prop :=
  match v with
  | none => True
  | some (r, c) => 0 ≤ r ∧ r < board_size ∧ 0 ≤ c ∧ c < board_size

theorem parseDigitsAux_append (l1 l2 : List Char) (acc : Nat) :
    parseDigitsAux (l1 ++ l2) acc =
      match parseDigitsAux l1 acc with
      | some v => parseDigitsAux l2 v
      | none => none := by
  induction l1 generalizing acc with
  | nil => rfl
  | cons c cs ih =>
    simp only [List.cons_append, parseDigitsAux]
    cases digitVal c with
    | none => rfl
    | some d => exact ih (acc * 10 + d)

theorem digitVal_digitChar {d : Nat} (hd : d < 10) :
    digitVal (digitChar d) = some d := by
  interval_cases d <;> decide

theorem digitChar_ne_dash {d : Nat} (hd : d < 10) : digitChar d ≠ '-' := by
  interval_cases d <;> decide

theorem digitChar_ne_plus {d : Nat} (hd : d < 10) : digitChar d ≠ '+' := by
  interval_cases d <;> decide

theorem digitChar_toUpper {d : Nat} (hd : d < 10) :
    (digitChar d).toUpper = digitChar d := by
  interval_cases d <;> decide

theorem parseDigitsAux_rev_digits (l : List Nat) (hl : ∀ d ∈ l, d < 10)
    (v : Nat) :
    parseDigitsAux (l.reverse.map digitChar) v =
      some (v * 10 ^ l.length + Nat.ofDigits 10 l) := by
  induction l generalizing v with
  | nil => simp [parseDigitsAux, Nat.ofDigits_nil]
  | cons d tl ih =>
    have hd : d < 10 := hl d (List.mem_cons_self d tl)
    have htl : ∀ e ∈ tl, e < 10 := fun e he => hl e (List.mem_cons_of_mem d he)
    rw [List.reverse_cons, List.map_append, parseDigitsAux_append, ih htl v]
    simp only [List.map_cons, List.map_nil, parseDigitsAux,
      digitVal_digitChar hd, Nat.ofDigits_cons, List.length_cons, pow_succ]
    ring_nf

theorem natDigitsGo_eq (fuel : Nat) :
    ∀ n acc, n ≤ fuel →
      natDigitsGo fuel n acc = (Nat.digits 10 n).reverse.map digitChar ++ acc := by
  induction fuel with
  | zero =>
    intro n acc hn
    have : n = 0 := Nat.le_zero.mp hn
    subst this
    simp [natDigitsGo]
  | succ fuel ih =>
    intro n acc hn
    by_cases h0 : n = 0
    · subst h0; simp [natDigitsGo]
    · have hpos : 0 < n := Nat.pos_of_ne_zero h0
      have hdiv : n / 10 ≤ fuel := by
        have : n / 10 < n := Nat.div_lt_self hpos (by omega)
        omega
      rw [natDigitsGo, if_neg h0, ih (n / 10) (digitChar (n % 10) :: acc) hdiv,
        Nat.digits_def' (by omega : 1 < 10) hpos]
      simp

theorem natDigits_eq (n : Nat) (hn : n ≠ 0) :
    natDigits n = (Nat.digits 10 n).reverse.map digitChar := by
  rw [natDigits, if_neg hn, natDigitsGo_eq n n [] le_rfl, List.append_nil]

theorem pyInt_natDigits (n : Nat) : pyInt (natDigits n) = Except.ok (n : Int) := by
  by_cases h0 : n = 0
  · subst h0; decide
  · rw [natDigits_eq n h0]
    have hne : Nat.digits 10 n ≠ [] := Nat.digits_ne_nil_iff_ne_zero.mpr h0
    cases hrev : (Nat.digits 10 n).reverse with
    | nil => exact absurd (List.reverse_eq_nil_iff.mp hrev) hne
    | cons d tl =>
      have hdmem : d ∈ Nat.digits 10 n := by
        rw [← List.mem_reverse, hrev]; exact List.mem_cons_self d tl
      have hd : d < 10 := Nat.digits_lt_base (by omega) hdmem
      have hparse :
          parseDigitsAux ((Nat.digits 10 n).reverse.map digitChar) 0 = some n := by
        rw [parseDigitsAux_rev_digits (Nat.digits 10 n)
          (fun e he => Nat.digits_lt_base (by omega) he) 0]
        simp [Nat.ofDigits_digits]
      rw [hrev] at hparse
      simp only [hrev, List.map_cons, pyInt, if_neg (digitChar_ne_dash hd),
        if_neg (digitChar_ne_plus hd)]
      rw [show digitChar d :: tl.map digitChar =
        (d :: tl).map digitChar from rfl, hparse]

theorem pyInt_intRepr (i : Int) : pyInt (intRepr i) = Except.ok i := by
  by_cases hneg : i < 0
  · rw [intRepr, if_pos hneg]
    have hpos : (-i).toNat ≠ 0 := by omega
    rw [natDigits_eq _ hpos]
    have hne : Nat.digits 10 (-i).toNat ≠ [] :=
      Nat.digits_ne_nil_iff_ne_zero.mpr hpos
    have hnil : (Nat.digits 10 (-i).toNat).reverse.map digitChar ≠ [] := by
      simp [List.reverse_eq_nil_iff, hne]
    have hparse :
        parseDigitsAux ((Nat.digits 10 (-i).toNat).reverse.map digitChar) 0 =
          some (-i).toNat := by
      rw [parseDigitsAux_rev_digits _
        (fun e he => Nat.digits_lt_base (by omega) he) 0]
      simp [Nat.ofDigits_digits]
    simp only [pyInt, if_pos rfl, if_neg hnil, hparse]
    rw [Int.toNat_of_nonneg (by omega : (0 : Int) ≤ -i), neg_neg]
    simp
  · rw [intRepr, if_neg hneg]
    have : ((i.toNat : Nat) : Int) = i := Int.toNat_of_nonneg (by omega)
    rw [← this]
    exact pyInt_natDigits i.toNat

theorem natDigits_map_toUpper (n : Nat) :
    (natDigits n).map Char.toUpper = natDigits n := by
  by_cases h0 : n = 0
  · subst h0; decide
  · rw [natDigits_eq n h0, List.map_map]
    refine List.map_congr_left ?_
    intro d hd
    have : d < 10 :=
      Nat.digits_lt_base (by omega) (List.mem_reverse.mp hd)
    exact digitChar_toUpper this

theorem intRepr_map_toUpper (i : Int) :
    (intRepr i).map Char.toUpper = intRepr i := by
  by_cases hneg : i < 0
  · rw [intRepr, if_pos hneg]
    simp [natDigits_map_toUpper]
  · rw [intRepr, if_neg hneg]
    exact natDigits_map_toUpper i.toNat

theorem pyWrap_of_nonneg (xs : List Char) (i : Int) (h0 : 0 ≤ i) :
    pyWrap xs i = i := by
  rw [pyWrap, if_neg (by omega)]

theorem pyListGet_ok_of_lt (xs : List Char) (i : Int) (h0 : 0 ≤ i)
    (h : i < xs.length) :
    pyListGet xs i = Except.ok (xs.get ⟨i.toNat, by omega⟩) := by
  rw [pyListGet, pyWrap_of_nonneg xs i h0, if_pos h0,
    List.get?_eq_get (by omega : i.toNat < xs.length)]

theorem pyListGet_ok_bound (xs : List Char) (i : Int) (c : Char) (h0 : 0 ≤ i)
    (h : pyListGet xs i = Except.ok c) :
    ∃ hh : i.toNat < xs.length, i < xs.length ∧ c = xs.get ⟨i.toNat, hh⟩ := by
  rw [pyListGet, pyWrap_of_nonneg xs i h0, if_pos h0] at h
  cases hget : xs.get? i.toNat with
  | none => rw [hget] at h; exact absurd h (by simp)
  | some c' =>
    rw [hget] at h
    obtain ⟨hh, hc⟩ := List.get?_eq_some.mp hget
    refine ⟨hh, by omega, ?_⟩
    rw [hc]
    exact (Except.ok.injEq _ _ ▸ h).symm

theorem pyIndex_get (xs : List Char) (hnd : xs.Nodup) (k : Nat)
    (hk : k < xs.length) :
    pyIndex xs (xs.get ⟨k, hk⟩) = Except.ok k := by
  have hmem : xs.get ⟨k, hk⟩ ∈ xs := xs.get_mem _ _
  rw [pyIndex, if_pos hmem]
  congr 1
  have := List.indexOf_getElem hnd k hk
  simpa [List.get_eq_getElem] using this

theorem sgf_columns_nodup : _SGF_COLUMNS.Nodup := by decide

theorem kgs_columns_nodup : _KGS_COLUMNS.Nodup := by decide

theorem sgf_columns_length : _SGF_COLUMNS.length = 52 := by decide

theorem kgs_columns_length : _KGS_COLUMNS.length = 25 := by decide

theorem kgs_columns_upper (c : Char) (hc : c ∈ _KGS_COLUMNS) :
    c.toUpper = c := by
  revert c
  decide

theorem kgs_columns_ne_p (c : Char) (hc : c ∈ _KGS_COLUMNS) : c ≠ 'p' := by
  revert c
  decide

theorem from_flat_to_flat (board_size : Nat) (hN : 1 ≤ board_size)
    (v : Option (Int × Int)) (hv : canonOK board_size v) :
    from_flat board_size (to_flat board_size v) = v := by
  cases v with
  | none => simp [to_flat, from_flat]
  | some rc =>
    obtain ⟨r, c⟩ := rc
    simp only [canonOK] at hv
    obtain ⟨hr0, hrN, hc0, hcN⟩ := hv
    have hNpos : (0 : Int) < board_size := by omega
    have hlt : (board_size : Int) * r + c < (board_size : Int) * board_size := by
      nlinarith
    rw [to_flat, from_flat, if_neg (by omega)]
    rw [show (board_size : Int) * r + c = c + (board_size : Int) * r from by ring]
    have hdiv : (c + (board_size : Int) * r).ediv board_size =
        c.ediv board_size + r :=
      Int.add_mul_ediv_left c r (by omega : (board_size : Int) ≠ 0)
    have hmod : (c + (board_size : Int) * r).emod board_size =
        c.emod board_size :=
      Int.add_mul_emod_self_left c (board_size : Int) r
    have hz : c.ediv board_size = 0 := Int.ediv_eq_zero_of_lt hc0 hcN
    have hm : c.emod board_size = c := Int.emod_eq_of_lt hc0 hcN
    rw [hdiv, hmod, hz, hm, zero_add]

theorem from_sgfmill_to_sgfmill (board_size : Nat) (v : Option (Int × Int)) :
    from_sgfmill board_size (to_sgfmill board_size v) = v := by
  cases v with
  | none => rfl
  | some rc =>
    obtain ⟨r, c⟩ := rc
    simp only [to_sgfmill, from_sgfmill, Option.some.injEq, Prod.mk.injEq]
    exact ⟨by ring, trivial⟩

theorem from_sgf_two (a b : Char) (rest : List Char) :
    from_sgf (some (String.mk (a :: b :: rest))) =
      match pyIndex _SGF_COLUMNS b with
      | Except.error e => Except.error e
      | Except.ok r =>
        match pyIndex _SGF_COLUMNS a with
        | Except.error e => Except.error e
        | Except.ok c => Except.ok (some ((r : Int), (c : Int))) := by
  have hne : String.mk (a :: b :: rest) ≠ "" := by
    intro h
    have := congrArg String.data h
    simp at this
  simp only [from_sgf, if_neg hne, pyStrGet, List.get?]

theorem to_sgf_ok (y x : Int) (hy0 : 0 ≤ y) (hy : y < (_SGF_COLUMNS.length : Int))
    (hx0 : 0 ≤ x) (hx : x < (_SGF_COLUMNS.length : Int)) :
    to_sgf (some (y, x)) =
      Except.ok (String.mk [_SGF_COLUMNS.get ⟨x.toNat, by omega⟩,
        _SGF_COLUMNS.get ⟨y.toNat, by omega⟩]) := by
  simp only [to_sgf, pyListGet_ok_of_lt _SGF_COLUMNS x hx0 hx,
    pyListGet_ok_of_lt _SGF_COLUMNS y hy0 hy]

theorem to_sgf_ok_inv (y x : Int) (s : String) (hy0 : 0 ≤ y) (hx0 : 0 ≤ x)
    (h : to_sgf (some (y, x)) = Except.ok s) :
    y < 52 ∧ x < 52 ∧ from_sgf (some s) = Except.ok (some (y, x)) := by
  simp only [to_sgf] at h
  cases hgx : pyListGet _SGF_COLUMNS x with
  | error e => rw [hgx] at h; exact absurd h (by simp)
  | ok a =>
    rw [hgx] at h
    cases hgy : pyListGet _SGF_COLUMNS y with
    | error e => rw [hgy] at h; exact absurd h (by simp)
    | ok b =>
      rw [hgy] at h
      obtain ⟨hxn, hxl, hae⟩ := pyListGet_ok_bound _SGF_COLUMNS x a hx0 hgx
      obtain ⟨hyn, hyl, hbe⟩ := pyListGet_ok_bound _SGF_COLUMNS y b hy0 hgy
      have hx52 : x < 52 := by
        rw [sgf_columns_length] at hxl
        exact_mod_cast hxl
      have hy52 : y < 52 := by
        rw [sgf_columns_length] at hyl
        exact_mod_cast hyl
      refine ⟨hy52, hx52, ?_⟩
      have hs : s = String.mk [a, b] := by
        have := Except.ok.injEq (α := String) (ε := PyErr) _ _ ▸ h
        exact this.symm
      rw [hs, from_sgf_two a b [], hae, hbe,
        pyIndex_get _SGF_COLUMNS sgf_columns_nodup y.toNat hyn,
        pyIndex_get _SGF_COLUMNS sgf_columns_nodup x.toNat hxn]
      simp [Int.toNat_of_nonneg hy0, Int.toNat_of_nonneg hx0]

theorem from_kgs_token (board_size : Nat) (c : Char) (tail : List Char)
    (hc : c ∈ _KGS_COLUMNS) (htail : tail.map Char.toUpper = tail) :
    from_kgs board_size (String.mk (c :: tail)) =
      match pyInt tail with
      | Except.error e => Except.error e
      | Except.ok n =>
        Except.ok (some ((board_size : Int) - n, (_KGS_COLUMNS.indexOf c : Int))) := by
  have hcp : c ≠ 'p' := kgs_columns_ne_p c hc
  have hne : String.mk (c :: tail) ≠ "pass" := by
    intro h
    have hdata : c :: tail = 'p' :: 'a' :: 's' :: 's' :: [] := congrArg String.data h
    exact hcp (List.head_eq_of_cons_eq hdata)
  have hupper : (String.mk (c :: tail)).data.map Char.toUpper = c :: tail := by
    show (c :: tail).map Char.toUpper = c :: tail
    rw [List.map_cons, kgs_columns_upper c hc, htail]
  simp only [from_kgs, if_neg hne, List.map_cons, kgs_columns_upper c hc, htail,
    pyStrGet, List.get?, List.drop_one, List.tail_cons, pyIndex, if_pos hc]

theorem to_kgs_ok (board_size : Nat) (y x : Int) (hx0 : 0 ≤ x)
    (hx : x < (_KGS_COLUMNS.length : Int)) :
    to_kgs board_size (some (y, x)) =
      Except.ok (String.mk (_KGS_COLUMNS.get ⟨x.toNat, by omega⟩ ::
        intRepr ((board_size : Int) - y))) := by
  simp only [to_kgs, pyListGet_ok_of_lt _KGS_COLUMNS x hx0 hx]

theorem to_kgs_ok_inv (board_size : Nat) (y x : Int) (s : String) (hx0 : 0 ≤ x)
    (h : to_kgs board_size (some (y, x)) = Except.ok s) :
    x < 25 ∧ from_kgs board_size s = Except.ok (some (y, x)) := by
  simp only [to_kgs] at h
  cases hgx : pyListGet _KGS_COLUMNS x with
  | error e => rw [hgx] at h; exact absurd h (by simp)
  | ok c =>
    rw [hgx] at h
    obtain ⟨hxn, hxl, hce⟩ := pyListGet_ok_bound _KGS_COLUMNS x c hx0 hgx
    have hx25 : x < 25 := by
      rw [kgs_columns_length] at hxl
      exact_mod_cast hxl
    refine ⟨hx25, ?_⟩
    have hs : s = String.mk (c :: intRepr ((board_size : Int) - y)) := by
      have := Except.ok.injEq (α := String) (ε := PyErr) _ _ ▸ h
      exact this.symm
    have hmem : c ∈ _KGS_COLUMNS := by
      rw [hce]
      exact _KGS_COLUMNS.get_mem _ _
    rw [hs, from_kgs_token board_size c _ hmem (intRepr_map_toUpper _),
      pyInt_intRepr ((board_size : Int) - y)]
    have hidx : (_KGS_COLUMNS.indexOf c : Int) = x := by
      rw [hce]
      have := List.indexOf_getElem kgs_columns_nodup x.toNat hxn
      rw [List.get_eq_getElem, this]
      exact Int.toNat_of_nonneg hx0
    rw [hidx]
    ring_nf

/-- Shared injectivity step: an operation with a left inverse on the relevant
values is injective there. -/
theorem inj_of_decode {A B : Type} (f : A → B) (g : B → A) (v w : A)
    (hv : g (f v) = v) (hw : g (f w) = w) (h : f v = f w) : v = w := by
  rw [← hv, h, hw]

/-- C1: Round-trip law: for every board_size ≥ 1 (with board_size within the
SGF alphabet's 52 columns resp. the KGS alphabet's 25 columns for those two
notations) and every canonical value v (Pass or an in-bounds pair), decoding
the encoding returns v in all four notations: flat, SGF, KGS, sgfmill. -/
theorem C1_round_trip (board_size : Nat) (hN : 1 ≤ board_size)
    (v : Option (Int × Int)) (hv : canonOK board_size v) :
    from_flat board_size (to_flat board_size v) = v ∧
    (board_size ≤ 52 →
      ∃ s, to_sgf v = Except.ok s ∧ from_sgf (some s) = Except.ok v) ∧
    (board_size ≤ 25 →
      ∃ s, to_kgs board_size v = Except.ok s ∧
        from_kgs board_size s = Except.ok v) ∧
    from_sgfmill board_size (to_sgfmill board_size v) = v := by
  refine ⟨from_flat_to_flat _ hN v hv, ?_, ?_,
    from_sgfmill_to_sgfmill _ v⟩
  · intro h52
    cases v with
    | none => exact ⟨"", rfl, rfl⟩
    | some rc =>
      obtain ⟨r, c⟩ := rc
      simp only [canonOK] at hv
      obtain ⟨hr0, hrN, hc0, hcN⟩ := hv
      have henc := to_sgf_ok r c hr0
        (by rw [sgf_columns_length]; omega) hc0
        (by rw [sgf_columns_length]; omega)
      exact ⟨_, henc, (to_sgf_ok_inv r c _ hr0 hc0 henc).2.2⟩
  · intro h25
    cases v with
    | none => exact ⟨"pass", rfl, rfl⟩
    | some rc =>
      obtain ⟨r, c⟩ := rc
      simp only [canonOK] at hv
      obtain ⟨hr0, hrN, hc0, hcN⟩ := hv
      have henc := to_kgs_ok board_size r c hc0
        (by rw [kgs_columns_length]; omega)
      exact ⟨_, henc, (to_kgs_ok_inv board_size r c _ hc0 henc).2⟩

/-- C1 witness: the round-trip law applied on the 19x19 board at (2, 3). -/
theorem C1_round_trip_witness :
    from_flat 19 (to_flat 19 (some (2, 3))) = some (2, 3) ∧
    (19 ≤ 52 → ∃ s, to_sgf (some (2, 3)) = Except.ok s ∧
      from_sgf (some s) = Except.ok (some (2, 3))) ∧
    (19 ≤ 25 → ∃ s, to_kgs 19 (some (2, 3)) = Except.ok s ∧
      from_kgs 19 s = Except.ok (some (2, 3))) ∧
    from_sgfmill 19 (to_sgfmill 19 (some (2, 3))) = some (2, 3) :=
  C1_round_trip 19 (by omega) (some (2, 3)) (by simp [canonOK])

/-- C2: Bijection law: for a fixed board_size, each encoder is injective on
the set of Pass plus in-bounds coordinates: distinct canonical values never
yield the same flat index, SGF token, KGS token or sgfmill tuple. -/
theorem C2_injective (board_size : Nat) (v w : Option (Int × Int))
    (hv : canonOK board_size v) (hw : canonOK board_size w) :
    (to_flat board_size v = to_flat board_size w → v = w) ∧
    (∀ t, to_sgf v = Except.ok t → to_sgf w = Except.ok t → v = w) ∧
    (∀ t, to_kgs board_size v = Except.ok t →
      to_kgs board_size w = Except.ok t → v = w) ∧
    (to_sgfmill board_size v = to_sgfmill board_size w → v = w) := by
  have hN1 : v = w ∨ 1 ≤ board_size := by
    cases v with
    | some rc =>
      obtain ⟨r, c⟩ := rc
      simp only [canonOK] at hv
      right
      omega
    | none =>
      cases w with
      | some rc =>
        obtain ⟨r, c⟩ := rc
        simp only [canonOK] at hw
        right
        omega
      | none => left; rfl
  have sgf_dec : ∀ u, canonOK board_size u → ∀ t,
      to_sgf u = Except.ok t → from_sgf (some t) = Except.ok u := by
    intro u hu t ht
    cases u with
    | none =>
      have ht' : t = "" := (Except.ok.inj ht).symm
      rw [ht']
      rfl
    | some rc =>
      obtain ⟨y, x⟩ := rc
      simp only [canonOK] at hu
      exact (to_sgf_ok_inv y x t hu.1 hu.2.2.1 ht).2.2
  have kgs_dec : ∀ u, canonOK board_size u → ∀ t,
      to_kgs board_size u = Except.ok t →
      from_kgs board_size t = Except.ok u := by
    intro u hu t ht
    cases u with
    | none =>
      have ht' : t = "pass" := (Except.ok.inj ht).symm
      rw [ht']
      rfl
    | some rc =>
      obtain ⟨y, x⟩ := rc
      simp only [canonOK] at hu
      exact (to_kgs_ok_inv board_size y x t hu.2.2.1 ht).2
  refine ⟨?_, ?_, ?_, ?_⟩
  · intro heq
    rcases hN1 with h | hN
    · exact h
    · exact inj_of_decode (to_flat board_size) (from_flat board_size) v w
        (from_flat_to_flat _ hN v hv) (from_flat_to_flat _ hN w hw) heq
  · intro t h1 h2
    have d1 := sgf_dec v hv t h1
    have d2 := sgf_dec w hw t h2
    rw [d1] at d2
    exact Except.ok.inj d2
  · intro t h1 h2
    have d1 := kgs_dec v hv t h1
    have d2 := kgs_dec w hw t h2
    rw [d1] at d2
    exact Except.ok.inj d2
  · intro heq
    exact inj_of_decode (to_sgfmill board_size) (from_sgfmill board_size) v w
      (from_sgfmill_to_sgfmill _ v) (from_sgfmill_to_sgfmill _ w) heq

/-- C2 witness: the bijection law applied on the 19x19 board at (1, 2) and
Pass. -/
theorem C2_injective_witness :
    (to_flat 19 (some (1, 2)) = to_flat 19 none →
      (some (1, 2) : Option (Int × Int)) = none) ∧
    (∀ t, to_sgf (some (1, 2)) = Except.ok t → to_sgf none = Except.ok t →
      (some (1, 2) : Option (Int × Int)) = none) ∧
    (∀ t, to_kgs 19 (some (1, 2)) = Except.ok t →
      to_kgs 19 none = Except.ok t →
      (some (1, 2) : Option (Int × Int)) = none) ∧
    (to_sgfmill 19 (some (1, 2)) = to_sgfmill 19 none →
      (some (1, 2) : Option (Int × Int)) = none) :=
  C2_injective 19 (some (1, 2)) none (by simp [canonOK]) (by simp [canonOK])

/-- C3: Concrete scenarios for board_size = 19: flat decodings of 0, 18 and
361, SGF encodings of (0,0), (0,18) and Pass, KGS encodings of (0,0), (0,18)
and Pass. -/
theorem C3_concrete :
    from_flat 19 0 = some (0, 0) ∧ from_flat 19 18 = some (0, 18) ∧
    from_flat 19 361 = none ∧
    to_sgf (some (0, 0)) = Except.ok "aa" ∧
    to_sgf (some (0, 18)) = Except.ok "sa" ∧
    to_sgf none = Except.ok "" ∧
    to_kgs 19 (some (0, 0)) = Except.ok "A19" ∧
    to_kgs 19 (some (0, 18)) = Except.ok "T19" ∧
    to_kgs 19 none = Except.ok "pass" := by
  decide

/-- C4 counterexample: the claim says every casing of "pass" decodes to Pass,
but "PASS" does not: the literal is compared before case normalisation, so
"PASS" falls through to column/row parsing and raises ValueError. -/
theorem C4_counterexample : from_kgs 19 "PASS" ≠ Except.ok none := by
  decide

/-- C4 amended: only the exact lowercase literal "pass" decodes to Pass (the
comparison happens before uppercasing); other casings such as "PASS" and
"Pass" are parsed as column+row and raise ValueError; encoding Pass yields
exactly "pass". -/
theorem C4_amended (board_size : Nat) :
    from_kgs board_size "pass" = Except.ok none ∧
    to_kgs board_size none = Except.ok "pass" ∧
    from_kgs board_size "PASS" = Except.error PyErr.valueError ∧
    from_kgs board_size "Pass" = Except.error PyErr.valueError := by
  exact ⟨rfl, rfl, rfl, rfl⟩

/-- C4 witness: the amended Pass-literal behaviour on the 19x19 board. -/
theorem C4_amended_witness :
    from_kgs 19 "pass" = Except.ok none ∧
    to_kgs 19 none = Except.ok "pass" ∧
    from_kgs 19 "PASS" = Except.error PyErr.valueError ∧
    from_kgs 19 "Pass" = Except.error PyErr.valueError :=
  C4_amended 19

/-- C5 counterexample: the claim says flat = board_size² + 1 fails with
OutOfRange, but from_flat performs no range check: on a 19x19 board the flat
index 362 decodes to the out-of-board coordinate (19, 1). -/
theorem C5_counterexample : from_flat 19 362 = some (19, 1) := by
  decide

/-- C5 amended: from_flat maps board_size² to Pass but performs no range
checking: board_size² + 1 decodes to the out-of-board pair (board_size, 1)
and -1 decodes to (-1, board_size - 1) via Python divmod; to_flat likewise
performs no validation and maps any pair (r, c) to board_size·r + c. -/
theorem C5_amended (board_size : Nat) (h2 : 2 ≤ board_size) :
    from_flat board_size ((board_size : Int) * board_size) = none ∧
    from_flat board_size ((board_size : Int) * board_size + 1) =
      some ((board_size : Int), 1) ∧
    from_flat board_size (-1) =
      some (-1, (board_size : Int) - 1) ∧
    (∀ r c : Int, to_flat board_size (some (r, c)) =
      (board_size : Int) * r + c) := by
  have hb0 : (0 : Int) < board_size := by omega
  have hsq : (0 : Int) ≤ (board_size : Int) * board_size := by positivity
  have hz1 : Int.ediv 1 (board_size : Int) = 0 :=
    Int.ediv_eq_zero_of_lt (by omega) (by omega)
  have hm1 : Int.emod 1 (board_size : Int) = 1 :=
    Int.emod_eq_of_lt (by omega) (by omega)
  have hzb : Int.ediv ((board_size : Int) - 1) (board_size : Int) = 0 :=
    Int.ediv_eq_zero_of_lt (by omega) (by omega)
  have hmb : Int.emod ((board_size : Int) - 1) (board_size : Int) =
      (board_size : Int) - 1 :=
    Int.emod_eq_of_lt (by omega) (by omega)
  refine ⟨by rw [from_flat, if_pos rfl], ?_, ?_, fun r c => rfl⟩
  · rw [from_flat, if_neg (by intro h; linarith)]
    have hone : (board_size : Int) * board_size + 1 =
        1 + (board_size : Int) * board_size := by ring
    have d1 : (1 + (board_size : Int) * board_size).ediv board_size =
        Int.ediv 1 board_size + board_size :=
      Int.add_mul_ediv_left 1 (board_size : Int)
        (by omega : (board_size : Int) ≠ 0)
    have m1 : (1 + (board_size : Int) * board_size).emod board_size =
        Int.emod 1 board_size :=
      Int.add_mul_emod_self_left 1 (board_size : Int) (board_size : Int)
    have hdiv : ((board_size : Int) * board_size + 1).ediv board_size =
        (board_size : Int) :=
      (congrArg (fun t : Int => Int.ediv t board_size) hone).trans
        (d1.trans (by rw [hz1, zero_add]))
    have hmod : ((board_size : Int) * board_size + 1).emod board_size = 1 :=
      (congrArg (fun t : Int => Int.emod t board_size) hone).trans
        (m1.trans hm1)
    rw [hdiv, hmod]
  · rw [from_flat, if_neg (by intro h; linarith)]
    have hone : (-1 : Int) = ((board_size : Int) - 1) +
        (board_size : Int) * (-1) := by ring
    have d1 : (((board_size : Int) - 1) + (board_size : Int) * (-1)).ediv board_size =
        Int.ediv ((board_size : Int) - 1) board_size + (-1) :=
      Int.add_mul_ediv_left _ (-1) (by omega : (board_size : Int) ≠ 0)
    have m1 : (((board_size : Int) - 1) + (board_size : Int) * (-1)).emod board_size =
        Int.emod ((board_size : Int) - 1) board_size :=
      Int.add_mul_emod_self_left _ (board_size : Int) (-1)
    have hdiv : (-1 : Int).ediv board_size = -1 :=
      (congrArg (fun t : Int => Int.ediv t board_size) hone).trans
        (d1.trans (by rw [hzb, zero_add]))
    have hmod : (-1 : Int).emod board_size = (board_size : Int) - 1 :=
      (congrArg (fun t : Int => Int.emod t board_size) hone).trans
        (m1.trans hmb)
    rw [hdiv, hmod]

/-- C5 witness: the amended unchecked-flat behaviour on the 19x19 board. -/
theorem C5_amended_witness :
    from_flat 19 ((19 : Int) * 19) = none ∧
    from_flat 19 ((19 : Int) * 19 + 1) = some ((19 : Int), 1) ∧
    from_flat 19 (-1) = some (-1, (19 : Int) - 1) ∧
    (∀ r c : Int, to_flat 19 (some (r, c)) = (19 : Int) * r + c) :=
  C5_amended 19 (by omega)

/-- C6 counterexample: the claim says a KGS row outside [1, board_size] fails
with OutOfRange, but "A20" on a 19x19 board decodes silently to the negative
row coordinate (-1, 0). -/
theorem C6_counterexample : from_kgs 19 "A20" = Except.ok (some (-1, 0)) := by
  decide

/-- C6 amended: the KGS decoder never validates the row: for every valid
column letter (the k-th KGS column) and every decimal row string n, it
returns (board_size - n, k), even when that row is negative or at least
board_size; for rows within [1, board_size] this is the in-bounds canonical
row board_size - n. -/
theorem C6_amended (board_size k n : Nat) (hk : k < _KGS_COLUMNS.length) :
    from_kgs board_size
      (String.mk (_KGS_COLUMNS.get ⟨k, hk⟩ :: natDigits n)) =
      Except.ok (some ((board_size : Int) - n, (k : Int))) := by
  rw [from_kgs_token board_size _ _ (_KGS_COLUMNS.get_mem _ _)
    (natDigits_map_toUpper n), pyInt_natDigits n]
  have hidx : _KGS_COLUMNS.indexOf (_KGS_COLUMNS.get ⟨k, hk⟩) = k := by
    have := List.indexOf_getElem kgs_columns_nodup k hk
    rw [List.get_eq_getElem]
    exact this
  rw [hidx]

/-- C6 witness: the amended unchecked-row behaviour at "A20" on the 19x19
board, giving the negative row -1. -/
theorem C6_amended_witness :
    from_kgs 19 (String.mk (_KGS_COLUMNS.get ⟨0, by decide⟩ :: natDigits 20)) =
      Except.ok (some ((19 : Int) - 20, (0 : Int))) :=
  C6_amended 19 0 20 (by decide)

/-- C7 counterexample: the claim says any SGF token containing a character
outside the 52-symbol alphabet fails, and that failures are a typed
InvalidFormat; but "aa@" contains '@' and still decodes fine (only the first
two characters are read), and the failures that do occur are Python
runtime exceptions, not a typed InvalidFormat result. -/
theorem C7_counterexample : from_sgf (some "aa@") = Except.ok (some (0, 0)) := by
  decide

/-- C7 amended: grammar violations surface as Python runtime exceptions: a
one-character SGF token raises IndexError; an SGF token whose first or second
character is outside the alphabet raises ValueError (later characters are
never inspected); a non-pass KGS token whose uppercased first character is
outside the 25-letter alphabet (including the letter I) raises ValueError, as
does one whose remaining characters do not parse as an int; in particular
"I5" raises ValueError. -/
theorem C7_amended :
    (∀ c : Char,
      from_sgf (some (String.mk [c])) = Except.error PyErr.indexError) ∧
    (∀ (c0 c1 : Char) (rest : List Char), c1 ∉ _SGF_COLUMNS →
      from_sgf (some (String.mk (c0 :: c1 :: rest))) =
        Except.error PyErr.valueError) ∧
    (∀ (c0 c1 : Char) (rest : List Char), c1 ∈ _SGF_COLUMNS →
      c0 ∉ _SGF_COLUMNS →
      from_sgf (some (String.mk (c0 :: c1 :: rest))) =
        Except.error PyErr.valueError) ∧
    (∀ (board_size : Nat) (c : Char) (tail : List Char),
      c.toUpper ∉ _KGS_COLUMNS → String.mk (c :: tail) ≠ "pass" →
      from_kgs board_size (String.mk (c :: tail)) =
        Except.error PyErr.valueError) ∧
    (∀ (board_size : Nat) (c : Char) (tail : List Char), c ∈ _KGS_COLUMNS →
      tail.map Char.toUpper = tail →
      pyInt tail = Except.error PyErr.valueError →
      from_kgs board_size (String.mk (c :: tail)) =
        Except.error PyErr.valueError) ∧
    from_kgs 19 "I5" = Except.error PyErr.valueError := by
  refine ⟨?_, ?_, ?_, ?_, ?_, by decide⟩
  · intro c
    have hne : String.mk [c] ≠ "" := by
      intro h
      have := congrArg String.data h
      simp at this
    simp [from_sgf, if_neg hne, pyStrGet, List.get?]
  · intro c0 c1 rest h1
    rw [from_sgf_two c0 c1 rest]
    simp [pyIndex, if_neg h1]
  · intro c0 c1 rest h1 h0
    rw [from_sgf_two c0 c1 rest]
    simp [pyIndex, if_pos h1, if_neg h0]
  · intro board_size c tail hc hne
    have hdata : (String.mk (c :: tail)).data = c :: tail := rfl
    simp [from_kgs, if_neg hne, hdata, List.map_cons, pyStrGet, List.get?,
      pyIndex, if_neg hc]
  · intro board_size c tail hc hupper hbad
    rw [from_kgs_token board_size c tail hc hupper, hbad]

/-- C7 witness: the amended exception behaviour at concrete malformed
tokens. -/
theorem C7_amended_witness :
    from_sgf (some (String.mk ['a'])) = Except.error PyErr.indexError ∧
    from_sgf (some (String.mk ['a', '@'])) = Except.error PyErr.valueError ∧
    from_sgf (some (String.mk ['@', 'a'])) = Except.error PyErr.valueError ∧
    from_kgs 9 (String.mk ['i', '5']) = Except.error PyErr.valueError ∧
    from_kgs 13 (String.mk ['A', '5', 'A']) = Except.error PyErr.valueError ∧
    from_kgs 19 "I5" = Except.error PyErr.valueError :=
  ⟨C7_amended.1 'a',
   C7_amended.2.1 'a' '@' [] (by decide),
   C7_amended.2.2.1 '@' 'a' [] (by decide) (by decide),
   C7_amended.2.2.2.1 9 'i' ['5'] (by decide) (by decide),
   C7_amended.2.2.2.2.1 13 'A' ['5', 'A'] (by decide) (by decide) (by decide),
   C7_amended.2.2.2.2.2⟩

/-- C8: from_sgfmill and to_sgfmill compute the same function; each maps Pass
to Pass, keeps the column and flips row r to board_size - 1 - r, and applying
either conversion twice is the identity; concretely on the 19x19 board,
(0,0) encodes to (18,0) and (18,0) decodes to (0,0). -/
theorem C8_sgfmill_involution (board_size : Nat) (v : Option (Int × Int))
    (r c : Int) :
    from_sgfmill board_size v = to_sgfmill board_size v ∧
    from_sgfmill board_size (from_sgfmill board_size v) = v ∧
    to_sgfmill board_size (to_sgfmill board_size v) = v ∧
    to_sgfmill board_size none = none ∧
    to_sgfmill board_size (some (r, c)) =
      some ((board_size : Int) - 1 - r, c) ∧
    to_sgfmill 19 (some (0, 0)) = some (18, 0) ∧
    from_sgfmill 19 (some (18, 0)) = some (0, 0) := by
  have hsame : ∀ u, from_sgfmill board_size u = to_sgfmill board_size u := by
    intro u
    cases u with
    | none => rfl
    | some rc => rfl
  have hinv : ∀ u,
      from_sgfmill board_size (from_sgfmill board_size u) = u := by
    intro u
    cases u with
    | none => rfl
    | some rc =>
      obtain ⟨y, x⟩ := rc
      simp only [from_sgfmill, Option.some.injEq, Prod.mk.injEq]
      exact ⟨by ring, trivial⟩
  refine ⟨hsame v, hinv v, ?_, rfl, rfl, by decide, by decide⟩
  rw [← hsame (to_sgfmill board_size v)]
  exact from_sgfmill_to_sgfmill board_size v

/-- C9: the SGF decoder accepts both the absence sentinel None and the empty
string, two distinct inputs, and maps each to Pass. -/
theorem C9_sgf_none_and_empty :
    from_sgf none = Except.ok none ∧
    from_sgf (some "") = Except.ok none ∧
    (none : Option String) ≠ some "" := by
  decide

/-- C10: an SGF token of length at least two whose first two characters are
in the alphabet decodes exactly like its two-character prefix, silently
ignoring the remaining characters, with no error. -/
theorem C10_sgf_extra_chars (c0 c1 : Char) (rest : List Char)
    (h0 : c0 ∈ _SGF_COLUMNS) (h1 : c1 ∈ _SGF_COLUMNS) :
    from_sgf (some (String.mk (c0 :: c1 :: rest))) =
      from_sgf (some (String.mk [c0, c1])) ∧
    from_sgf (some (String.mk (c0 :: c1 :: rest))) =
      Except.ok (some ((_SGF_COLUMNS.indexOf c1 : Int),
        (_SGF_COLUMNS.indexOf c0 : Int))) := by
  refine ⟨by rw [from_sgf_two, from_sgf_two], ?_⟩
  rw [from_sgf_two]
  simp [pyIndex, if_pos h1, if_pos h0]

/-- C10 witness: "aab" decodes exactly like "aa", to (0, 0). -/
theorem C10_sgf_extra_chars_witness :
    from_sgf (some (String.mk ['a', 'a', 'b'])) =
      from_sgf (some (String.mk ['a', 'a'])) ∧
    from_sgf (some (String.mk ['a', 'a', 'b'])) =
      Except.ok (some ((_SGF_COLUMNS.indexOf 'a' : Int),
        (_SGF_COLUMNS.indexOf 'a' : Int))) :=
  C10_sgf_extra_chars 'a' 'a' ['b'] (by decide) (by decide)
